import Mathlib

/-!
Verification development for the hybrid retrieval-and-validation pipeline
(`services/rag_pipeline.py` together with `services/rag_utils.py`).

Modelling conventions:
* Python floats are modelled exactly as rationals (`ℚ`).
* Python strings are modelled as `String`; all operations on them are
  implemented by structural recursion over the underlying character list so
  that concrete instances evaluate.
* The natural logarithm used by BM25 (`math.log`) is an external numeric
  primitive; it is modelled as an explicit function parameter `lg : ℚ → ℚ`.
* The embedding service and the semantic retriever built on it
  (`SemanticRetriever.rank`, which needs `sqrt` for cosine similarity) are
  external collaborators from the point of view of the validation logic; the
  pipeline is parameterised by the ranked list they return.
* The judge LLM transport is modelled as `Except Unit (Option String)`:
  `.error ()` is a raised transport exception, `.ok c` a response whose
  message content is `c` (Python `None` becomes `none`).
* Mongo cursors are modelled as the list of documents they yield; a cursor
  `.limit(n)` is `List.take n`.
-/

/-! ### Generic string helpers (Python semantics on character lists) -/

/-- Character class of the regex `[a-z0-9]`. -/
def isTokChar (c : Char) : Bool := ('a' ≤ c && c ≤ 'z') || ('0' ≤ c && c ≤ '9')

/-- Splits a character list into maximal runs of `[a-z0-9]` characters,
mirroring `re.findall(r"[a-z0-9]+", ...)`.  `cur` is the reversed current
run. -/
def tokAux : List Char → List Char → List String
  | cur, [] => if cur = [] then [] else [String.mk cur.reverse]
  | cur, c :: cs =>
    if isTokChar c then tokAux (c :: cur) cs
    else if cur = [] then tokAux [] cs
    else String.mk cur.reverse :: tokAux [] cs

/-- `_tokenize` of `rag_pipeline.py`: `re.findall(r"[a-z0-9]+", text.lower())`.
The guard `if not text` of the source is absorbed: an empty string yields `[]`
anyway. -/
def tokenize (s : String) : List String := tokAux [] (s.data.map Char.toLower)

/-- Python `str.strip()` on a character list. -/
def stripChars (l : List Char) : List Char :=
  ((l.dropWhile Char.isWhitespace).reverse.dropWhile Char.isWhitespace).reverse

/-- Python `str.strip()`. -/
def pyStrip (s : String) : String := String.mk (stripChars s.data)

/-- Python `str.upper()` (ASCII, which is all the pipeline compares). -/
def pyUpper (s : String) : String := String.mk (s.data.map Char.toUpper)

/-- Python `str.lower()` (ASCII, which is all the pipeline compares). -/
def pyLower (s : String) : String := String.mk (s.data.map Char.toLower)

/-- Is `needle` a (character-wise) leading part of `hay`? -/
def isLeading : List Char → List Char → Bool
  | [], _ => true
  | _ :: _, [] => false
  | a :: as, b :: bs => (a == b) && isLeading as bs

/-- Substring search over character lists. -/
def containsAux (needle : List Char) : List Char → Bool
  | [] => isLeading needle []
  | c :: rest => isLeading needle (c :: rest) || containsAux needle rest

/-- Python `needle in hay` on strings (substring containment). -/
def strContains (hay needle : String) : Bool := containsAux needle.data hay.data

/-- Python truthiness of an optional string: `None` and `""` are falsy. -/
def strTruthy : Option String → Option String
  | none => none
  | some s => if s = "" then none else some s

/-- Python `a or b` for optional strings (`None`/`""` falsy). -/
def pyOrS (a b : Option String) : Option String :=
  match strTruthy a with
  | some s => some s
  | none => strTruthy b

/-- First truthy value of a list of optional strings, mirroring a Python
`x or y or z` chain. -/
def firstTruthy : List (Option String) → Option String
  | [] => none
  | a :: rest =>
    match strTruthy a with
    | some s => some s
    | none => firstTruthy rest

/-- Zero-padding to width 3, mirroring the format spec `03d` for the
arguments the pipeline produces. -/
def pad3 (n : ℕ) : String :=
  if n < 10 then "00" ++ toString n
  else if n < 100 then "0" ++ toString n
  else toString n

/-- Zero-padding to width 4, mirroring the format spec `04d`. -/
def pad4 (n : ℕ) : String :=
  if n < 10 then "000" ++ toString n
  else if n < 100 then "00" ++ toString n
  else if n < 1000 then "0" ++ toString n
  else toString n

/-- Floor of a rational (numerator and denominator are already reduced). -/
def floorQ (q : ℚ) : ℤ := q.num / (q.den : ℤ)

/-- Round to the nearest integer, ties to even — the rounding used by the
format spec `.2f` (applied here to the exact rational value). -/
def roundHalfEven (q : ℚ) : ℤ :=
  let f := floorQ q
  let r := q - (f : ℚ)
  if r < 1/2 then f
  else if 1/2 < r then f + 1
  else if f % 2 = 0 then f else f + 1

/-- The format spec `.2f` for a nonnegative rational: two decimal places. -/
def fmtTwoDec (q : ℚ) : String :=
  let n := roundHalfEven (100 * q)
  let ip := n / 100
  let fp := n % 100
  toString ip ++ "." ++ (if fp < 10 then "0" ++ toString fp else toString fp)

/-- Python `max(l)` for a nonempty list, `0.0` via `default`/guards
otherwise. -/
def pyMax : List ℚ → ℚ
  | [] => 0
  | x :: xs => xs.foldl max x

/-- `statistics.mean` guarded as used in the source
(`float(mean(l)) if l else 0.0`). -/
def meanOrZero (l : List ℚ) : ℚ := if l = [] then 0 else l.sum / (l.length : ℚ)

/-- Keep the first occurrence of each element — the distinct elements of a
Python `set(...)` built from a list, in first-occurrence order. -/
def uniqFirst (l : List String) : List String :=
  l.foldl (fun acc t => if t ∈ acc then acc else acc ++ [t]) []

/-! ### `rag_utils.py` -/

/-- `COMMON_STOPWORDS` of `rag_utils.py`. -/
def COMMON_STOPWORDS : List String :=
  ["the", "and", "for", "with", "that", "from", "this", "have", "when",
   "your", "into", "onto", "about", "issue", "ticket", "agent", "user",
   "customer", "client", "please", "need", "needs", "error", "cant",
   "cannot", "unable", "case", "problem", "help"]

/-- The keyword-selection loop of `extract_query_terms`: skip stopwords and
tokens shorter than 3 characters, skip duplicates, stop once `limit` terms
are collected. -/
def extractLoop (stop : List String) (limit : ℕ) : List String → List String → List String
  | acc, [] => acc
  | acc, t :: ts =>
    if t ∈ stop ∨ t.length < 3 then extractLoop stop limit acc ts
    else if t ∈ acc then extractLoop stop limit acc ts
    else
      let acc' := acc ++ [t]
      if limit ≤ acc'.length then acc' else extractLoop stop limit acc' ts

/-- `extract_query_terms` of `rag_utils.py`.  `stopwords=None` (the
pipeline's call) is `none`; a passed-but-empty set also falls back to
`COMMON_STOPWORDS` because of the `stopwords or COMMON_STOPWORDS`
truthiness chain. -/
def extract_query_terms (text : String) (limit : ℕ) (stopwords : Option (List String)) :
    List String :=
  if text = "" then []
  else
    let chosen := match stopwords with
      | none => COMMON_STOPWORDS
      | some l => if l = [] then COMMON_STOPWORDS else l
    extractLoop chosen limit [] (tokenize text)

/-- A manual knowledge document (`doc_type == "knowledge"`).  The `_id` key
is modelled as `oid`. -/
structure ManualDoc where
  oid : Option String
  content : Option String
  embedding : Option (List ℚ)
  tags : List String
  source : Option String
  approved_at : Option String
  created_at : Option String

/-- One entry of an article document's `chunks` array. -/
structure ArticleChunk where
  content : Option String
  embedding : Option (List ℚ)
  chunk_index : Option ℕ

/-- A published article document (`doc_type == "knowledge_article"`).  The
`_id` key is modelled as `oid`. -/
structure Article where
  oid : Option String
  tags : List String
  published_at : Option String
  source_ticket_id : Option String
  title : Option String
  chunks : List ArticleChunk

/-- The normalized raw-chunk dictionary produced by `manual_doc_to_chunk` /
`iter_article_chunks`; keys a given producer never sets are `none`. -/
structure RawChunk where
  content : Option String
  embedding : Option (List ℚ)
  tags : List String
  doc_id : Option String
  article_id : Option String
  chunk_index : Option ℕ
  source : Option String
  source_ticket_id : Option String
  published_at : Option String
  title : Option String
  approved_at : Option String
  created_at : Option String

/-- `manual_doc_to_chunk` of `rag_utils.py`; `str(_id) if _id else None` is
the truthiness filter on the modelled string id. -/
def manual_doc_to_chunk (d : ManualDoc) : RawChunk :=
  { content := d.content
    embedding := d.embedding
    tags := d.tags
    doc_id := strTruthy d.oid
    article_id := none
    chunk_index := none
    source := d.source
    source_ticket_id := none
    published_at := none
    title := none
    approved_at := d.approved_at
    created_at := d.created_at }

/-- `iter_article_chunks` of `rag_utils.py`: flattens an article's nested
chunks, skipping entries with falsy `content`. -/
def iter_article_chunks (a : Article) : List RawChunk :=
  a.chunks.filterMap fun ch =>
    match ch.content with
    | none => none
    | some c =>
      if c = "" then none
      else some
        { content := some c
          embedding := ch.embedding
          tags := a.tags
          doc_id := none
          article_id := strTruthy a.oid
          chunk_index := ch.chunk_index
          source := none
          source_ticket_id := a.source_ticket_id
          published_at := a.published_at
          title := a.title
          approved_at := none
          created_at := none }

/-- Python truthiness of an optional embedding (`None` and `[]` falsy). -/
def embTruthy : Option (List ℚ) → Bool
  | none => false
  | some [] => false
  | some (_ :: _) => true

/-- Content-truthiness plus optional embedding requirement shared by both
stream helpers of `rag_utils.py`. -/
def streamKeep (re : Bool) (ch : RawChunk) : Bool :=
  match strTruthy ch.content with
  | none => false
  | some _ => !re || embTruthy ch.embedding

/-- `stream_manual_chunks` of `rag_utils.py` over the documents yielded by a
cursor. -/
def stream_manual_chunks (docs : List ManualDoc) (re : Bool) : List RawChunk :=
  (docs.map manual_doc_to_chunk).filter (streamKeep re)

/-- `stream_article_chunks` of `rag_utils.py` over the article documents
yielded by a cursor. -/
def stream_article_chunks (arts : List Article) (re : Bool) : List RawChunk :=
  (arts.flatMap iter_article_chunks).filter (streamKeep re)

/-! ### `rag_pipeline.py` — data model -/

/-- The `metadata` dictionary attached to a candidate by
`_prepare_candidate`. -/
structure CandMeta where
  tags : List String
  source_ticket_id : Option String
  published_at : Option String
  title : Option String
  chunk_index : Option ℕ
  source : Option String
deriving DecidableEq

/-- A scoring-ready candidate produced by `_prepare_candidate`.  `term_freq`
is the `Counter` over the tokenization of `content`, as an association list
in first-occurrence order. -/
structure Candidate where
  doc_id : String
  content : String
  embedding : Option (List ℚ)
  term_freq : List (String × ℕ)
  doc_len : ℕ
  metadata : CandMeta
  source : Option String
deriving DecidableEq

/-- A fused output chunk (the dictionary built by `_fuse_results`,
corresponding to the `RetrievedChunk` shape). -/
structure Chunk where
  doc_id : String
  citation_id : String
  content : String
  source : Option String
  metadata : CandMeta
  embedding : Option (List ℚ)
  similarity_score : ℚ
  lexical_score : ℚ
  fusion_score : ℚ
  preview : String
deriving DecidableEq

/-- The metrics dictionary of `_build_metrics`, with the three keys that
`_run_validation` adds via `setdefault` flattened in (they are absent until
`_run_validation` writes them; reading them before that never happens). -/
structure Metrics where
  avg_bm25_score : ℚ
  avg_semantic_similarity : ℚ
  top_1_similarity : ℚ
  context_precision : ℚ
  chunk_count_non_zero : ℕ
  relevance_judge_result : Option String
  citations_found : ℕ
  citations_total : ℕ
  similarity_scores : List ℚ
  avg_similarity : ℚ
  max_similarity : ℚ
deriving DecidableEq

/-- The dictionary returned by `_run_validation`.  The zero-results branch
of the source omits the `response_prefix` key; its caller reads it back with
`.get("response_prefix", "")`, so the missing key is modelled as `""`.  The
field is named `response_prefix` in the source. -/
structure ValidationResult where
  decision : String
  reason : Option String
  metrics : Metrics
  confidence : String
  response_prefix_str : String
deriving DecidableEq

/-- The dictionary returned by `build_context`.  The empty-corpus branch
returns `metrics = {}`, modelled as `none`. -/
structure ContextResult where
  decision : String
  reason : Option String
  chunks : List Chunk
  metrics : Option Metrics
  confidence : String
  response_prefix_str : String
deriving DecidableEq

/-! ### `rag_pipeline.py` — context precision -/

/-- Number of distinct query tokens occurring (as substrings) in the
lower-cased chunk text: `sum(1 for term in tokens if term in chunk_text)`
with `tokens = set(_tokenize(query))`. -/
def matchCount (queryTokens : List String) (chunkText : String) : ℕ :=
  (uniqFirst queryTokens).countP (fun t => strContains chunkText t)

/-- The relevant-chunk count of `_calculate_context_precision`: chunks in
which at least 3 distinct query tokens occur. -/
def relevantCount (query : String) (chunks : List Chunk) : ℕ :=
  chunks.countP (fun ch => 3 ≤ matchCount (tokenize query) (pyLower ch.content))

/-- `_calculate_context_precision` of `rag_pipeline.py`. -/
def calculate_context_precision (query : String) (chunks : List Chunk) : ℚ :=
  if tokenize query = [] ∨ chunks = [] then 0
  else (relevantCount query chunks : ℚ) / ((max chunks.length 1 : ℕ) : ℚ)

/-- Modelled from the spec (for claim C2 only): the variant of context
precision the spec describes, in which the matched tokens are the
*extracted keyword* tokens of the query — `extract_query_terms`, i.e. after
stopword removal and case-folding — rather than the full tokenization. -/
def context_precision_claimed (query : String) (chunks : List Chunk) : ℚ :=
  if extract_query_terms query 6 none = [] ∨ chunks = [] then 0
  else
    ((chunks.countP (fun ch =>
        3 ≤ matchCount (extract_query_terms query 6 none) (pyLower ch.content)) : ℕ) : ℚ) /
      ((chunks.length : ℕ) : ℚ)

/-! ### `rag_pipeline.py` — candidate collection -/

/-- Token counter (`collections.Counter`), an association list in
first-occurrence order. -/
def bumpCount : List (String × ℕ) → String → List (String × ℕ)
  | [], t => [(t, 1)]
  | p :: ps, t => if p.1 = t then (p.1, p.2 + 1) :: ps else p :: bumpCount ps t

/-- `Counter(tokens)`. -/
def countTokens (ts : List String) : List (String × ℕ) := ts.foldl bumpCount []

/-- `_prepare_candidate` of `rag_pipeline.py`.  The raw-id chain
`raw.get("doc_id") or raw.get("_id") or raw.get("article_id")` reduces to
`doc_id or article_id` because the stream helpers never emit an `_id` key. -/
def prepare_candidate (pfx : String) (raw : RawChunk) : Option Candidate :=
  let content := pyStrip (raw.content.getD "")
  if content = "" then none
  else
    let raw_id := firstTruthy [raw.doc_id, raw.article_id]
    let doc_id0 :=
      match raw_id with
      | some s => s
      | none => pfx ++ "_" ++ pad4 content.length ++ "_" ++ toString (raw.chunk_index.getD 0)
    let doc_id :=
      match raw.chunk_index with
      | some i => doc_id0 ++ "_chunk" ++ toString i
      | none => doc_id0
    let tokens := tokenize content
    let meta : CandMeta :=
      { tags := raw.tags
        source_ticket_id := raw.source_ticket_id
        published_at := raw.published_at
        title := raw.title
        chunk_index := raw.chunk_index
        source := raw.source }
    some
      { doc_id := doc_id
        content := content
        embedding := raw.embedding
        term_freq := countTokens tokens
        doc_len := if tokens.length = 0 then 1 else tokens.length
        metadata := meta
        source := pyOrS meta.source meta.source_ticket_id }

/-- One accumulation loop of `_collect_candidates`: prepare each streamed raw
chunk, append the usable ones, and stop as soon as the accumulated list has
reached `cap` entries. -/
def collectInto (cap : ℕ) (pfx : String) : List RawChunk → List Candidate → List Candidate
  | [], acc => acc
  | r :: rs, acc =>
    match prepare_candidate pfx r with
    | none => collectInto cap pfx rs acc
    | some c =>
      let acc' := acc ++ [c]
      if cap ≤ acc'.length then acc' else collectInto cap pfx rs acc'

/-- `_collect_candidates` of `rag_pipeline.py`: the manual-chunk cursor
first (limited to `cap` documents), then — unless the cap was already
reached — the article-chunk cursor (limited to `cap` article documents). -/
def collect_candidates (cap : ℕ) (manual : List ManualDoc) (articles : List Article) :
    List Candidate :=
  let m := collectInto cap "manual" (stream_manual_chunks (manual.take cap) false) []
  if cap ≤ m.length then m
  else collectInto cap "article" (stream_article_chunks (articles.take cap) false) m

/-! ### `rag_pipeline.py` — BM25 retriever -/

/-- `term_freq.get(term, 0)`. -/
def tfGet : List (String × ℕ) → String → ℕ
  | [], _ => 0
  | p :: ps, t => if p.1 = t then p.2 else tfGet ps t

/-- `term in cand.get("term_freq", {})` — key membership. -/
def tfHasKey : List (String × ℕ) → String → Bool
  | [], _ => false
  | p :: ps, t => if p.1 = t then true else tfHasKey ps t

/-- Document frequency of a term over the candidate set passed in. -/
def docFreq (cands : List Candidate) (t : String) : ℕ :=
  cands.countP (fun c => tfHasKey c.term_freq t)

/-- Average document length `sum(doc_len) / max(N, 1)` over the candidate
set. -/
def bm25AvgDl (cands : List Candidate) : ℚ :=
  (cands.map (fun c => (c.doc_len : ℚ))).sum / ((max cands.length 1 : ℕ) : ℚ)

/-- One term's contribution to a candidate's BM25 score, with the source's
skip conditions (`tf == 0`, `df == 0`) and `1e-9` clamps.  `lg` models
`math.log`. -/
def bm25TermPiece (lg : ℚ → ℚ) (k1 b : ℚ) (N : ℕ) (cands : List Candidate) (avgdl : ℚ)
    (c : Candidate) (t : String) : ℚ :=
  let tf := tfGet c.term_freq t
  if tf = 0 then 0
  else
    let df := docFreq cands t
    if df = 0 then 0
    else
      let idf := lg ((((N : ℚ) - (df : ℚ) + 1/2) / ((df : ℚ) + 1/2)) + 1)
      let den := (tf : ℚ) + k1 * (1 - b + b * ((c.doc_len : ℚ) / max avgdl (1/1000000000)))
      idf * (((tf : ℚ) * (k1 + 1)) / max den (1/1000000000))

/-- A candidate's full BM25 score (the inner loop over `query_terms`). -/
def bm25Score (lg : ℚ → ℚ) (k1 b : ℚ) (N : ℕ) (cands : List Candidate) (avgdl : ℚ)
    (terms : List String) (c : Candidate) : ℚ :=
  (terms.map (bm25TermPiece lg k1 b N cands avgdl c)).sum

/-- Modelled from the spec (for claim C6): the per-candidate score written
exactly as the claim states it, `Σ idf(t) * (tf*(k1+1)) / (tf +
k1*(1-b+b*doc_len/avg_dl))` with `idf(t) = lg(((N-df+0.5)/(df+0.5)) + 1)`,
without the defensive clamps or skip conditions. -/
def bm25ScoreClaimed (lg : ℚ → ℚ) (k1 b : ℚ) (N : ℕ) (cands : List Candidate) (avgdl : ℚ)
    (terms : List String) (c : Candidate) : ℚ :=
  (terms.map (fun t =>
    let tf := tfGet c.term_freq t
    let df := docFreq cands t
    lg ((((N : ℚ) - (df : ℚ) + 1/2) / ((df : ℚ) + 1/2)) + 1) *
      (((tf : ℚ) * (k1 + 1)) / ((tf : ℚ) + k1 * (1 - b + b * ((c.doc_len : ℚ) / avgdl)))))).sum

/-- Descending order on scored ids, by score (the key of both `sort` calls
of the source, `reverse=True`).  Used with a stable sort, so ties keep their
original order exactly as Python's `list.sort` does. -/
def fusGe (a b : String × ℚ) : Prop := b.2 ≤ a.2

instance : DecidableRel fusGe := fun a b => inferInstanceAs (Decidable (b.2 ≤ a.2))
instance : IsTotal (String × ℚ) fusGe := ⟨fun a b => le_total b.2 a.2⟩
instance : IsTrans (String × ℚ) fusGe := ⟨fun _ _ _ h1 h2 => le_trans h2 h1⟩

/-- `BM25Retriever.rank` of `rag_pipeline.py` (`k1`, `b` are the
constructor parameters, `1.9` and `0.75` by default). -/
def bm25_rank (lg : ℚ → ℚ) (k1 b : ℚ) (query_terms : List String)
    (cands : List Candidate) (top_k : ℕ) : List (String × ℚ) :=
  if query_terms = [] ∨ cands = [] then []
  else
    let N := cands.length
    let avgdl := bm25AvgDl cands
    let scored := cands.filterMap (fun c =>
      if c.term_freq = [] then none
      else
        let s := bm25Score lg k1 b N cands avgdl query_terms c
        if 0 < s then some (c.doc_id, s) else none)
    (List.insertionSort fusGe scored).take top_k

/-! ### `rag_pipeline.py` — rank fusion -/

/-- The configured pipeline parameters (`HybridRAGPipeline.__init__`
keyword defaults: `top_k=5`, `max_candidates=400`, `bm25_weight=0.40`,
`semantic_weight=0.60`). -/
structure RagConfig where
  top_k : ℕ
  max_candidates : ℕ
  bm25_weight : ℚ
  semantic_weight : ℚ

/-- The default configuration. -/
def defaultConfig : RagConfig :=
  { top_k := 5, max_candidates := 400, bm25_weight := 2/5, semantic_weight := 3/5 }

/-- `rrf_scores.get(doc_id, 0.0) + v` assignment on a Python dict, which
keeps the position of an existing key and appends a new key at the end. -/
def alAdd : List (String × ℚ) → String → ℚ → List (String × ℚ)
  | [], k, v => [(k, v)]
  | p :: ps, k, v => if p.1 = k then (p.1, p.2 + v) :: ps else p :: alAdd ps k v

/-- Dict lookup with default. -/
def alGetD : List (String × ℚ) → String → ℚ → ℚ
  | [], _, d => d
  | p :: ps, k, d => if p.1 = k then p.2 else alGetD ps k d

/-- One accumulation pass of `_fuse_results`:
`for rank, (doc_id, _) in enumerate(ranked, start=1): rrf[doc_id] += w / (RRF_K + rank)`
with `RRF_K = 60`. -/
def rrfFold (w : ℚ) : ℕ → List (String × ℚ) → List (String × ℚ) → List (String × ℚ)
  | _, acc, [] => acc
  | r, acc, (d, _) :: rest => rrfFold w (r + 1) (alAdd acc d (w / (60 + (r : ℚ)))) rest

/-- The finished `rrf_scores` dict: the lexical pass then the semantic
pass, both 1-based. -/
def rrfScores (w1 w2 : ℚ) (bm25_ranked semantic_ranked : List (String × ℚ)) :
    List (String × ℚ) :=
  rrfFold w2 1 (rrfFold w1 1 [] bm25_ranked) semantic_ranked

/-- `{doc_id: score for doc_id, score in ranked}` read back with
`.get(doc_id, 0.0)` — later pairs overwrite earlier ones. -/
def lastGetD (l : List (String × ℚ)) (k : String) (d : ℚ) : ℚ := alGetD l.reverse k d

/-- `cand_lookup = {cand["doc_id"]: cand for cand in candidates}` read back
with `.get(doc_id)` — the last candidate with a given id wins. -/
def findCand : List Candidate → String → Option Candidate
  | [], _ => none
  | c :: cs, d =>
    match findCand cs d with
    | some r => some r
    | none => if c.doc_id = d then some c else none

/-- `f"kb_doc_{idx:03d}"`. -/
def kbDocId (n : ℕ) : String := "kb_doc_" ++ pad3 n

/-- The output loop of `_fuse_results`: enumerate the top fused entries from
1, skip ids missing from the candidate lookup (the index still advances),
and build the output chunk dictionaries. -/
def buildChunks (cands : List Candidate) (lexLk semLk : List (String × ℚ)) :
    ℕ → List (String × ℚ) → List Chunk
  | _, [] => []
  | idx, (d, f) :: rest =>
    match findCand cands d with
    | none => buildChunks cands lexLk semLk (idx + 1) rest
    | some c =>
      { doc_id := d
        citation_id := kbDocId idx
        content := c.content
        source := c.source
        metadata := c.metadata
        embedding := c.embedding
        similarity_score := lastGetD semLk d 0
        lexical_score := lastGetD lexLk d 0
        fusion_score := f
        preview := pyStrip (c.content.take 480) } :: buildChunks cands lexLk semLk (idx + 1) rest

/-- `_fuse_results` of `rag_pipeline.py`: weighted reciprocal-rank fusion,
stable descending sort by fused score, truncation to `top_k`, then the
output loop. -/
def fuse_results (w1 w2 : ℚ) (top_k : ℕ) (bm25_ranked semantic_ranked : List (String × ℚ))
    (cands : List Candidate) : List Chunk :=
  let rrf := rrfScores w1 w2 bm25_ranked semantic_ranked
  let ordered := List.insertionSort fusGe rrf
  buildChunks cands bm25_ranked semantic_ranked 1 (ordered.take top_k)

/-! ### `rag_pipeline.py` — metrics, judge, validation gate -/

/-- `_build_metrics` of `rag_pipeline.py`.  The three trailing fields are
the `setdefault` keys that `_run_validation` adds later; they are
initialised here to the values they would read as before being set (they
never are read before). -/
def build_metrics (chunks : List Chunk) (bm25_ranked _semantic_ranked : List (String × ℚ)) :
    Metrics :=
  { avg_bm25_score := meanOrZero (bm25_ranked.map (·.2))
    avg_semantic_similarity := meanOrZero (chunks.map (·.similarity_score))
    top_1_similarity := pyMax (chunks.map (·.similarity_score))
    context_precision := 0
    chunk_count_non_zero := chunks.countP (fun c => c.content ≠ "")
    relevance_judge_result := none
    citations_found := 0
    citations_total := chunks.length
    similarity_scores := []
    avg_similarity := 0
    max_similarity := 0 }

/-- `_judge_relevance` of `rag_pipeline.py`.  `hasJudge` models
`self.llm_client and self.judge_model` both being set; `resp` is the
completion call: `.error ()` when the transport raises (the `except` arm
returns `"YES"`), `.ok c` when it returns message content `c`.  A returned
answer maps to `"YES"` exactly when its stripped upper-cased text contains
`"YES"`, and to `"NO"` otherwise. -/
def judge_relevance (hasJudge : Bool) (resp : Except Unit (Option String)) : String :=
  if hasJudge = false then "YES"
  else
    match resp with
    | .error _ => "YES"
    | .ok c =>
      let answer := pyUpper (pyStrip (c.getD ""))
      if strContains answer "YES" then "YES" else "NO"

/-- Average of the fused chunks' `similarity_score`s
(`float(mean(...)) if ... else 0.0`). -/
def avgSim (chunks : List Chunk) : ℚ := meanOrZero (chunks.map (·.similarity_score))

/-- Maximum of the fused chunks' `similarity_score`s
(`float(max(...)) if ... else 0.0`). -/
def maxSim (chunks : List Chunk) : ℚ := pyMax (chunks.map (·.similarity_score))

/-- The metrics updates `_run_validation` performs on the non-empty path:
`context_precision`, `relevance_judge_result` (only when the judge ran) and
the three `setdefault` keys. -/
def valMetrics (m : Metrics) (p : ℚ) (jr : Option String) (sims : List ℚ) (avg mx : ℚ) :
    Metrics :=
  { m with
    context_precision := p
    relevance_judge_result := jr
    similarity_scores := sims
    avg_similarity := avg
    max_similarity := mx }

/-- The caveat prefix attached on the low-precision proceed path. -/
def limitedInfoCaveat : String := "I found limited information, but here\x27s what I know: "

/-- `_run_validation` of `rag_pipeline.py`.  The sequential
decision/reason mutations of the source are expressed as the equivalent
mutually-exclusive branches; on every branch the fields carry exactly the
values the source leaves in them (in particular `confidence` stays
`"HIGH"` on the escalation branches below, since the source never lowers
it there). -/
def run_validation (hasJudge : Bool) (resp : Except Unit (Option String))
    (query : String) (chunks : List Chunk) (m0 : Metrics) : ValidationResult :=
  if chunks = [] then
    { decision := "escalate"
      reason := some "Hybrid retrieval returned 0 results"
      metrics := m0
      confidence := "LOW"
      response_prefix_str := "" }
  else
    let sims := chunks.map (·.similarity_score)
    let avg := avgSim chunks
    let mx := maxSim chunks
    let p := calculate_context_precision query chunks
    if avg < 2/5 ∨ mx < 9/20 then
      { decision := "escalate"
        reason := some "Low semantic similarity across retrieved chunks"
        metrics := valMetrics m0 p none sims avg mx
        confidence := "HIGH"
        response_prefix_str := "" }
    else
      let ja := judge_relevance hasJudge resp
      let m1 := valMetrics m0 p (some ja) sims avg mx
      if ja = "NO" then
        { decision := "escalate"
          reason := some "LLM Relevance Judge determined retrieved context insufficient"
          metrics := m1
          confidence := "HIGH"
          response_prefix_str := "" }
      else if p < 2/5 then
        { decision := "escalate"
          reason := some ("Context Precision " ++ fmtTwoDec p ++ " below 0.4 threshold")
          metrics := m1
          confidence := "HIGH"
          response_prefix_str := "" }
      else if p < 3/5 then
        { decision := "proceed"
          reason := none
          metrics := m1
          confidence := "LOW"
          response_prefix_str := limitedInfoCaveat }
      else
        { decision := "proceed"
          reason := none
          metrics := m1
          confidence := "HIGH"
          response_prefix_str := "" }

/-! ### `rag_pipeline.py` — `build_context` -/

/-- The query-term selection on line 203 of the source:
`extract_query_terms(query) or _tokenize(query)`. -/
def queryTermsUsed (query : String) : List String :=
  let e := extract_query_terms query 6 none
  if e = [] then tokenize query else e

/-- `build_context` of `rag_pipeline.py`.  The persona collection is
modelled as the two document lists its corpus holds; `semRank` is
`SemanticRetriever.rank` (embedding service plus cosine similarity — an
external collaborator, applied to the query, the candidate set and
`top_k`); `lg` is `math.log` for BM25; the judge transport is as in
`judge_relevance`. -/
def build_context (lg : ℚ → ℚ)
    (semRank : String → List Candidate → ℕ → List (String × ℚ))
    (hasJudge : Bool) (resp : Except Unit (Option String)) (cfg : RagConfig)
    (manual : List ManualDoc) (articles : List Article) (query : String) : ContextResult :=
  let cands := collect_candidates cfg.max_candidates manual articles
  if cands = [] then
    { decision := "escalate"
      reason := some "Knowledge base empty for persona"
      chunks := []
      metrics := none
      confidence := "LOW"
      response_prefix_str := "" }
  else
    let query_terms := queryTermsUsed query
    let bm25_ranked := bm25_rank lg (19/10) (3/4) query_terms cands cfg.top_k
    let semantic_ranked := semRank query cands cfg.top_k
    let fused := fuse_results cfg.bm25_weight cfg.semantic_weight cfg.top_k
      bm25_ranked semantic_ranked cands
    let metrics := build_metrics fused bm25_ranked semantic_ranked
    let validation := run_validation hasJudge resp query fused metrics
    { decision := validation.decision
      reason := validation.reason
      chunks := fused
      metrics := some validation.metrics
      confidence := validation.confidence
      response_prefix_str := validation.response_prefix_str }

/-! ### Concrete instances used by the closed instantiations below -/

/-- Empty candidate metadata. -/
def emptyMeta : CandMeta := ⟨[], none, none, none, none, none⟩

/-- An all-zero metrics record. -/
def zeroMetrics : Metrics := ⟨0, 0, 0, 0, 0, none, 0, 0, [], 0, 0⟩

/-- A fused chunk with a given similarity score and content. -/
def testChunk (sim : ℚ) (content : String) : Chunk :=
  ⟨"d1", "kb_doc_001", content, none, emptyMeta, none, sim, 0, 0, ""⟩

/-- A one-document manual corpus. -/
def testManualDoc : ManualDoc :=
  ⟨some "m1", some "Reset the password portal", none, [], none, none, none⟩

/-- A two-chunk published article. -/
def testArticle : Article :=
  ⟨some "a1", [], none, none, some "T",
   [⟨some "VPN setup guide steps", none, some 0⟩, ⟨some "Second note text", none, some 1⟩]⟩

/-- Specification helper for the fusion-weight law: the total contribution
a document id collects from one enumerated ranked list, the enumeration
starting at rank `r`. -/
def contribSum (w : ℚ) (d : String) : ℕ → List (String × ℚ) → ℚ
  | _, [] => 0
  | r, (d', _) :: rest =>
    (if d' = d then w / (60 + (r : ℚ)) else 0) + contribSum w d (r + 1) rest

/-- A candidate with explicit term frequencies (three distinct tokens, each
once). -/
def candA : Candidate :=
  ⟨"a", "password reset guide", none,
   [("password", 1), ("reset", 1), ("guide", 1)], 3, emptyMeta, none⟩

/-- A second such candidate with disjoint vocabulary. -/
def candB : Candidate :=
  ⟨"b", "coffee brewing notes", none,
   [("coffee", 1), ("brewing", 1), ("notes", 1)], 3, emptyMeta, none⟩

/-! ## Theorems -/

/-- Claim C9: on a persona whose corpus yields zero candidates,
`build_context` returns (without raising) `decision = escalate`,
`reason = "Knowledge base empty for persona"`, `confidence = LOW` and an
empty chunk list, and skips all further checks: the result is the same
constant for every BM25 logarithm, every semantic ranker and every judge
transport, so no lexical or semantic ranking and no judge call can be
observed. -/
theorem claim_C9_empty_corpus (lg : ℚ → ℚ)
    (semRank : String → List Candidate → ℕ → List (String × ℚ))
    (hasJudge : Bool) (resp : Except Unit (Option String)) (cfg : RagConfig)
    (manual : List ManualDoc) (articles : List Article) (query : String)
    (h : collect_candidates cfg.max_candidates manual articles = []) :
    build_context lg semRank hasJudge resp cfg manual articles query =
      { decision := "escalate"
        reason := some "Knowledge base empty for persona"
        chunks := []
        metrics := none
        confidence := "LOW"
        response_prefix_str := "" } := by
  simp only [build_context, h, if_pos]

/-- Closed instantiation of `claim_C9_empty_corpus` on an empty corpus. -/
theorem claim_C9_witness :
    collect_candidates defaultConfig.max_candidates [] [] = [] ∧
    build_context (fun q => q) (fun _ _ _ => []) true (.ok (some "YES")) defaultConfig [] []
        "anything" =
      { decision := "escalate"
        reason := some "Knowledge base empty for persona"
        chunks := []
        metrics := none
        confidence := "LOW"
        response_prefix_str := "" } :=
  ⟨by decide,
   claim_C9_empty_corpus (fun q => q) (fun _ _ _ => []) true (.ok (some "YES")) defaultConfig
     [] [] "anything" (by decide)⟩

/-- Claim C7: on a non-empty fused-chunk list whose average similarity is
below 0.40 or whose maximum similarity is below 0.45, the validation gate
escalates with reason "Low semantic similarity across retrieved chunks",
and the LLM relevance judge is not consulted: the recorded judge result is
`none` and the outcome does not depend on the judge configuration or
transport. -/
theorem claim_C7_similarity_floor (hasJudge : Bool) (resp : Except Unit (Option String))
    (query : String) (chunks : List Chunk) (m0 : Metrics)
    (hne : chunks ≠ [])
    (hf : avgSim chunks < 2/5 ∨ maxSim chunks < 9/20) :
    (run_validation hasJudge resp query chunks m0).decision = "escalate" ∧
    (run_validation hasJudge resp query chunks m0).reason =
      some "Low semantic similarity across retrieved chunks" ∧
    (run_validation hasJudge resp query chunks m0).metrics.relevance_judge_result = none ∧
    ∀ (hasJudge' : Bool) (resp' : Except Unit (Option String)),
      run_validation hasJudge' resp' query chunks m0 =
        run_validation hasJudge resp query chunks m0 := by
  simp only [run_validation, if_neg hne, if_pos hf, valMetrics]
  refine ⟨?_, ?_, ?_, fun _ _ => ?_⟩ <;> trivial

/-- Closed instantiation of `claim_C7_similarity_floor` on a chunk of
similarity 0.30. -/
theorem claim_C7_witness :
    (run_validation true (.ok (some "YES")) "anything" [testChunk (3/10) "text"]
        zeroMetrics).decision = "escalate" ∧
    (run_validation true (.ok (some "YES")) "anything" [testChunk (3/10) "text"]
        zeroMetrics).metrics.relevance_judge_result = none := by
  have h := claim_C7_similarity_floor true (.ok (some "YES")) "anything"
    [testChunk (3/10) "text"] zeroMetrics (by decide)
    (by left; norm_num [avgSim, meanOrZero, testChunk])
  exact ⟨h.1, h.2.2.1⟩

/-- Claim C8: when the gate reaches the context-precision stage with the
decision still `proceed` (non-empty chunks, similarity floor passed, judge
answered YES), then: precision below 0.40 escalates with the formatted
reason; precision in [0.40, 0.60) proceeds with confidence LOW and the
limited-information caveat; precision at least 0.60 proceeds with
confidence HIGH and an empty caveat. -/
theorem claim_C8_precision_bands (hasJudge : Bool) (resp : Except Unit (Option String))
    (query : String) (chunks : List Chunk) (m0 : Metrics)
    (hne : chunks ≠ [])
    (hf : ¬(avgSim chunks < 2/5 ∨ maxSim chunks < 9/20))
    (hj : judge_relevance hasJudge resp = "YES") :
    (calculate_context_precision query chunks < 2/5 →
      (run_validation hasJudge resp query chunks m0).decision = "escalate" ∧
      (run_validation hasJudge resp query chunks m0).reason =
        some ("Context Precision " ++ fmtTwoDec (calculate_context_precision query chunks) ++
          " below 0.4 threshold")) ∧
    (2/5 ≤ calculate_context_precision query chunks →
      calculate_context_precision query chunks < 3/5 →
      (run_validation hasJudge resp query chunks m0).decision = "proceed" ∧
      (run_validation hasJudge resp query chunks m0).confidence = "LOW" ∧
      (run_validation hasJudge resp query chunks m0).response_prefix_str = limitedInfoCaveat) ∧
    (3/5 ≤ calculate_context_precision query chunks →
      (run_validation hasJudge resp query chunks m0).decision = "proceed" ∧
      (run_validation hasJudge resp query chunks m0).confidence = "HIGH" ∧
      (run_validation hasJudge resp query chunks m0).response_prefix_str = "") := by
  simp only [run_validation, if_neg hne, if_neg hf, hj]
  have hyn : ¬("YES" = "NO") := by decide
  simp only [if_neg hyn]
  refine ⟨fun hp => ?_, fun hp1 hp2 => ?_, fun hp => ?_⟩
  · simp only [if_pos hp]
    refine ⟨?_, ?_⟩ <;> trivial
  · rw [if_neg (not_lt.mpr hp1), if_pos hp2]
    refine ⟨?_, ?_, ?_⟩ <;> trivial
  · rw [if_neg (not_lt.mpr (le_trans (by norm_num) hp)),
      if_neg (not_lt.mpr hp)]
    refine ⟨?_, ?_, ?_⟩ <;> trivial

/-- Closed instantiation of `claim_C8_precision_bands` on the low-confidence
band: two chunks, one keyword-relevant, precision one half. -/
theorem claim_C8_witness :
    (run_validation false (.ok none) "alpha beta gamma"
        [testChunk (9/10) "alpha beta gamma details", testChunk (4/5) "unrelated text"]
        zeroMetrics).decision = "proceed" ∧
    (run_validation false (.ok none) "alpha beta gamma"
        [testChunk (9/10) "alpha beta gamma details", testChunk (4/5) "unrelated text"]
        zeroMetrics).confidence = "LOW" ∧
    (run_validation false (.ok none) "alpha beta gamma"
        [testChunk (9/10) "alpha beta gamma details", testChunk (4/5) "unrelated text"]
        zeroMetrics).response_prefix_str = limitedInfoCaveat := by
  have hp : calculate_context_precision "alpha beta gamma"
      [testChunk (9/10) "alpha beta gamma details", testChunk (4/5) "unrelated text"] = 1/2 := by
    have hr : relevantCount "alpha beta gamma"
        [testChunk (9/10) "alpha beta gamma details", testChunk (4/5) "unrelated text"] = 1 := by
      decide
    have hcond : ¬(tokenize "alpha beta gamma" = [] ∨
        ([testChunk (9/10) "alpha beta gamma details", testChunk (4/5) "unrelated text"] :
          List Chunk) = []) := by decide
    rw [calculate_context_precision, if_neg hcond, hr]
    norm_num
  have h := claim_C8_precision_bands false (.ok none) "alpha beta gamma"
    [testChunk (9/10) "alpha beta gamma details", testChunk (4/5) "unrelated text"]
    zeroMetrics (by decide)
    (by
      rw [not_or]
      constructor
      · rw [not_lt]
        simp [avgSim, meanOrZero, testChunk]
        norm_num
      · rw [not_lt]
        simp [maxSim, pyMax, testChunk]
        norm_num)
    (by decide)
  exact (h.2.1 (by rw [hp]; norm_num) (by rw [hp]; norm_num))

/-- The precision-stage escalation reason can never equal the judge-stage
escalation reason, whatever the formatted precision text is (their first
characters differ). -/
theorem precisionReasonNeJudgeReason (x : String) :
    ("Context Precision " ++ x ++ " below 0.4 threshold") ≠
      "LLM Relevance Judge determined retrieved context insufficient" := by
  intro h
  have h2 := congrArg (fun s : String => s.data.head?) h
  simp only [String.data_append, List.cons_append, List.head?_cons] at h2
  exact absurd h2 (by decide)

/-- Claim C1 (amended): the judge verdict defaults to YES when the judge is
unconfigured or the transport raises; a successfully returned answer parses
to YES exactly when its stripped upper-cased text contains "YES" and to NO
otherwise; and, once the similarity floor has passed, the gate escalates
with the judge reason exactly when the parsed verdict is NO — so a returned
answer that does not contain "YES" causes escalation rather than defaulting
to YES. -/
theorem claim_C1_judge_amended :
    (∀ (hj : Bool), judge_relevance hj (.error ()) = "YES") ∧
    (∀ (resp : Except Unit (Option String)), judge_relevance false resp = "YES") ∧
    (∀ (c : Option String), strContains (pyUpper (pyStrip (c.getD ""))) "YES" = true →
      judge_relevance true (.ok c) = "YES") ∧
    (∀ (c : Option String), strContains (pyUpper (pyStrip (c.getD ""))) "YES" = false →
      judge_relevance true (.ok c) = "NO") ∧
    (∀ (hasJudge : Bool) (resp : Except Unit (Option String)) (query : String)
        (chunks : List Chunk) (m0 : Metrics), chunks ≠ [] →
      ¬(avgSim chunks < 2/5 ∨ maxSim chunks < 9/20) →
      ((run_validation hasJudge resp query chunks m0).reason =
          some "LLM Relevance Judge determined retrieved context insufficient" ↔
        judge_relevance hasJudge resp = "NO")) := by
  refine ⟨fun hj => ?_, fun resp => rfl, fun c h => ?_, fun c h => ?_,
    fun hasJudge resp query chunks m0 hne hf => ?_⟩
  · cases hj <;> rfl
  · simp [judge_relevance, h]
  · simp [judge_relevance, h]
  · simp only [run_validation, if_neg hne, if_neg hf]
    by_cases hja : judge_relevance hasJudge resp = "NO"
    · simp [hja]
    · simp only [if_neg hja]
      split_ifs with h1 h2
      · exact iff_of_false
          (fun h => precisionReasonNeJudgeReason _ (Option.some.inj h)) hja
      · exact iff_of_false (by simp) hja
      · exact iff_of_false (by simp) hja

/-- Claim C1 fails on the code: the judge answer "SURE" does not contain
"YES", yet the verdict is NO (not the claimed default YES) and the gate
escalates with the judge reason even though no explicit NO was given. -/
theorem claim_C1_counterexample :
    judge_relevance true (.ok (some "SURE")) = "NO" ∧
    judge_relevance true (.ok (some "SURE")) ≠ "YES" ∧
    (run_validation true (.ok (some "SURE")) "anything" [testChunk (9/10) "text"]
        zeroMetrics).decision = "escalate" ∧
    (run_validation true (.ok (some "SURE")) "anything" [testChunk (9/10) "text"]
        zeroMetrics).reason =
      some "LLM Relevance Judge determined retrieved context insufficient" := by
  have hne : ([testChunk (9/10) "text"] : List Chunk) ≠ [] := by decide
  have hf : ¬(avgSim [testChunk (9/10) "text"] < 2/5 ∨
      maxSim [testChunk (9/10) "text"] < 9/20) := by
    rw [not_or]
    constructor
    · rw [not_lt]
      simp [avgSim, meanOrZero, testChunk]
      norm_num
    · rw [not_lt]
      simp [maxSim, pyMax, testChunk]
      norm_num
  have hja : judge_relevance true (.ok (some "SURE")) = "NO" := by decide
  refine ⟨hja, by decide, ?_, ?_⟩ <;>
    simp only [run_validation, if_neg hne, if_neg hf, hja, if_pos]

/-- Claim C2 (amended): context precision is the fraction of fused chunks
containing at least 3 distinct tokens of the *full* lower-cased
alphanumeric tokenization of the query (no stopword removal and no term
cap, unlike the extracted keyword terms), each matched as a substring of
the lower-cased chunk text; it is 0 when there are no chunks or no query
tokens, and it is the value the validation gate records in its metrics. -/
theorem claim_C2_precision_amended :
    (∀ (query : String) (chunks : List Chunk),
      tokenize query = [] ∨ chunks = [] → calculate_context_precision query chunks = 0) ∧
    (∀ (query : String) (chunks : List Chunk), tokenize query ≠ [] → chunks ≠ [] →
      calculate_context_precision query chunks =
        (relevantCount query chunks : ℚ) / (chunks.length : ℚ)) ∧
    (∀ (hasJudge : Bool) (resp : Except Unit (Option String)) (query : String)
        (chunks : List Chunk) (m0 : Metrics), chunks ≠ [] →
      (run_validation hasJudge resp query chunks m0).metrics.context_precision =
        calculate_context_precision query chunks) := by
  refine ⟨fun query chunks h => ?_, fun query chunks h1 h2 => ?_,
    fun hasJudge resp query chunks m0 hne => ?_⟩
  · rw [calculate_context_precision, if_pos h]
  · rw [calculate_context_precision, if_neg (by rw [not_or]; exact ⟨h1, h2⟩)]
    have : max chunks.length 1 = chunks.length :=
      Nat.max_eq_left (List.length_pos.mpr h2)
    rw [this]
  · simp only [run_validation, if_neg hne]
    split_ifs <;> simp [valMetrics]

/-- Claim C2 fails on the code: for the query "the for with have" (all of
whose words are stopwords, so it has no extracted keyword tokens) and one
chunk containing three of those words, the code computes precision 1 — the
stopwords themselves are matched — whereas the claimed definition (at
least 3 extracted stopword-free keyword tokens, else 0.0 when the query
yields no tokens) gives 0. -/
theorem claim_C2_counterexample :
    calculate_context_precision "the for with have" [testChunk 1 "the for with"] = 1 ∧
    context_precision_claimed "the for with have" [testChunk 1 "the for with"] = 0 ∧
    calculate_context_precision "the for with have" [testChunk 1 "the for with"] ≠
      context_precision_claimed "the for with have" [testChunk 1 "the for with"] := by
  have h1 : calculate_context_precision "the for with have" [testChunk 1 "the for with"] = 1 := by
    have hr : relevantCount "the for with have" [testChunk 1 "the for with"] = 1 := by decide
    have hcond : ¬(tokenize "the for with have" = [] ∨
        ([testChunk 1 "the for with"] : List Chunk) = []) := by decide
    rw [calculate_context_precision, if_neg hcond, hr]
    norm_num
  have h2 : context_precision_claimed "the for with have" [testChunk 1 "the for with"] = 0 := by
    rw [context_precision_claimed, if_pos (Or.inl (by decide))]
  exact ⟨h1, h2, by rw [h1, h2]; norm_num⟩

/-- The tokens produced by the run-splitter are the nonempty runs whose
characters all belong to the class `[a-z0-9]`, provided the pending run
already satisfies the invariant. -/
theorem tokAux_chars : ∀ (cs cur : List Char), (∀ c ∈ cur, isTokChar c = true) →
    ∀ t ∈ tokAux cur cs, t.data ≠ [] ∧ ∀ c ∈ t.data, isTokChar c = true := by
  intro cs
  induction cs with
  | nil =>
    intro cur hcur t ht
    rw [tokAux] at ht
    by_cases h : cur = []
    · simp [h] at ht
    · rw [if_neg h] at ht
      rcases List.mem_singleton.mp ht with rfl
      refine ⟨by simpa using h, ?_⟩
      intro c hc
      exact hcur c (by simpa using hc)
  | cons c cs ih =>
    intro cur hcur t ht
    rw [tokAux] at ht
    by_cases h1 : isTokChar c = true
    · rw [if_pos h1] at ht
      refine ih (c :: cur) ?_ t ht
      rintro x hx
      rcases List.mem_cons.mp hx with rfl | hxc
      · exact h1
      · exact hcur x hxc
    · rw [if_neg h1] at ht
      by_cases h2 : cur = []
      · rw [if_pos h2] at ht
        exact ih [] (by simp) t ht
      · rw [if_neg h2] at ht
        rcases List.mem_cons.mp ht with rfl | hrest
        · refine ⟨by simpa using h2, ?_⟩
          intro x hx
          exact hcur x (by simpa using hx)
        · exact ih [] (by simp) t hrest

/-- Every token of `tokenize` is a nonempty string of characters from
`[a-z0-9]`. -/
theorem tokenize_chars (s : String) :
    ∀ t ∈ tokenize s, t.data ≠ [] ∧ ∀ c ∈ t.data, isTokChar c = true :=
  tokAux_chars _ [] (by simp)

/-- Structure of the keyword-selection loop: it appends to its accumulator
a stopword-free, length-filtered, duplicate-free sublist of the remaining
tokens, and never exceeds the limit when entered below it. -/
theorem extractLoop_structure (stop : List String) (limit : ℕ) :
    ∀ (ts acc : List String), acc.Nodup →
    ∃ s, extractLoop stop limit acc ts = acc ++ s ∧ s.Sublist ts ∧
      (∀ t ∈ s, t ∉ stop ∧ 3 ≤ t.length) ∧ (acc ++ s).Nodup ∧
      (acc.length < limit → (acc ++ s).length ≤ limit) := by
  intro ts
  induction ts with
  | nil =>
    intro acc hacc
    exact ⟨[], by simp [extractLoop, hacc], by simp, by simp, by simpa using hacc,
      fun h => by simpa using Nat.le_of_lt h⟩
  | cons t ts ih =>
    intro acc hacc
    rw [extractLoop]
    by_cases h1 : t ∈ stop ∨ t.length < 3
    · rw [if_pos h1]
      obtain ⟨s, hs1, hs2, hs3, hs4, hs5⟩ := ih acc hacc
      exact ⟨s, hs1, hs2.cons t, hs3, hs4, hs5⟩
    · rw [if_neg h1]
      push_neg at h1
      by_cases h2 : t ∈ acc
      · rw [if_pos h2]
        obtain ⟨s, hs1, hs2, hs3, hs4, hs5⟩ := ih acc hacc
        exact ⟨s, hs1, hs2.cons t, hs3, hs4, hs5⟩
      · rw [if_neg h2]
        have hacc' : (acc ++ [t]).Nodup := by
          rw [List.nodup_append]
          exact ⟨hacc, List.nodup_singleton t, by simpa using h2⟩
        by_cases h3 : limit ≤ (acc ++ [t]).length
        · rw [if_pos h3]
          refine ⟨[t], rfl, by simp, ?_, hacc', fun hlt => ?_⟩
          · intro x hx
            rcases List.mem_singleton.mp hx with rfl
            exact ⟨h1.1, h1.2⟩
          · simpa using Nat.succ_le_of_lt hlt
        · rw [if_neg h3]
          obtain ⟨s, hs1, hs2, hs3, hs4, hs5⟩ := ih (acc ++ [t]) hacc'
          refine ⟨t :: s, by rw [hs1]; simp, hs2.cons₂ t, ?_, ?_, ?_⟩
          · intro x hx
            rcases List.mem_cons.mp hx with rfl | hxs
            · exact ⟨h1.1, h1.2⟩
            · exact hs3 x hxs
          · have : acc ++ t :: s = (acc ++ [t]) ++ s := by simp
            rw [this]
            exact hs4
          · intro _
            have h3' : (acc ++ [t]).length < limit := Nat.lt_of_not_le h3
            have := hs5 h3'
            have heq : acc ++ t :: s = (acc ++ [t]) ++ s := by simp
            rw [heq]
            exact this

/-- Claim C10: the query-term list `build_context` hands to the BM25
retriever holds at most 6 distinct lower-cased alphanumeric tokens, each of
length at least 3 and not in the fixed stopword set, in first-occurrence
order (a duplicate-free sublist of the tokenization); when no token of the
query qualifies, it falls back to the full unfiltered tokenization of the
query. -/
theorem claim_C10_query_terms (query : String) :
    (extract_query_terms query 6 none).length ≤ 6 ∧
    (extract_query_terms query 6 none).Nodup ∧
    (extract_query_terms query 6 none).Sublist (tokenize query) ∧
    (∀ t ∈ extract_query_terms query 6 none,
      t ∈ tokenize query ∧ 3 ≤ t.length ∧ t ∉ COMMON_STOPWORDS ∧
      t.data ≠ [] ∧ ∀ c ∈ t.data, isTokChar c = true) ∧
    (extract_query_terms query 6 none = [] → queryTermsUsed query = tokenize query) ∧
    (extract_query_terms query 6 none ≠ [] →
      queryTermsUsed query = extract_query_terms query 6 none) := by
  have hqtu1 : extract_query_terms query 6 none = [] →
      queryTermsUsed query = tokenize query := by
    intro h
    rw [queryTermsUsed, h, if_pos rfl]
  have hqtu2 : extract_query_terms query 6 none ≠ [] →
      queryTermsUsed query = extract_query_terms query 6 none := by
    intro h
    rw [queryTermsUsed, if_neg h]
  by_cases hq : query = ""
  · have he : extract_query_terms query 6 none = [] := by
      rw [extract_query_terms, if_pos hq]
    refine ⟨by simp [he], by simp [he], ?_, by simp [he], hqtu1, hqtu2⟩
    rw [he]
    exact List.nil_sublist _
  · have he : extract_query_terms query 6 none =
        extractLoop COMMON_STOPWORDS 6 [] (tokenize query) := by
      rw [extract_query_terms, if_neg hq]
    obtain ⟨s, hs1, hs2, hs3, hs4, hs5⟩ :=
      extractLoop_structure COMMON_STOPWORDS 6 (tokenize query) [] List.nodup_nil
    rw [List.nil_append] at hs1 hs4 hs5
    rw [he, hs1]
    refine ⟨hs5 (by norm_num), hs4, hs2, fun t ht => ?_,
      fun h => hqtu1 (by rw [he, hs1]; exact h),
      fun h => (hqtu2 (by rw [he, hs1]; exact h)).trans (by rw [he, hs1])⟩
    obtain ⟨hstop, hlen⟩ := hs3 t ht
    obtain ⟨hne, hchars⟩ := tokenize_chars query t (hs2.mem ht)
    exact ⟨hs2.mem ht, hlen, hstop, hne, hchars⟩

/-- Closed instantiation of `claim_C10_query_terms`: a concrete extraction
(stopwords dropped, short tokens dropped) and a concrete fallback to the
full tokenization. -/
theorem claim_C10_witness :
    extract_query_terms "How do I reset the password for my account?" 6 none =
      ["how", "reset", "password", "account"] ∧
    queryTermsUsed "the and for" = tokenize "the and for" ∧
    queryTermsUsed "the and for" = ["the", "and", "for"] :=
  ⟨by decide, (claim_C10_query_terms "the and for").2.2.2.2.1 (by decide), by decide⟩

/-- A successfully prepared candidate never has empty text (the collector
silently drops raw chunks whose stripped content is empty). -/
theorem prepare_content_ne (pfx : String) (r : RawChunk) (c : Candidate)
    (h : prepare_candidate pfx r = some c) : c.content ≠ "" := by
  simp only [prepare_candidate] at h
  by_cases hc : pyStrip (r.content.getD "") = ""
  · rw [if_pos hc] at h
    exact absurd h (by simp)
  · rw [if_neg hc] at h
    obtain rfl := Option.some.inj h
    exact hc

/-- The accumulation loop of the collector equals capped truncation of the
accumulator followed by all usable prepared chunks, whenever it is entered
strictly below the cap. -/
theorem collectInto_take (cap : ℕ) (pfx : String) :
    ∀ (raws : List RawChunk) (acc : List Candidate), acc.length < cap →
    collectInto cap pfx raws acc =
      (acc ++ raws.filterMap (prepare_candidate pfx)).take cap := by
  intro raws
  induction raws with
  | nil =>
    intro acc hacc
    simp only [collectInto, List.filterMap_nil, List.append_nil]
    rw [List.take_of_length_le (Nat.le_of_lt hacc)]
  | cons r rs ih =>
    intro acc hacc
    simp only [collectInto, List.filterMap_cons]
    cases hpc : prepare_candidate pfx r with
    | none =>
      exact ih acc hacc
    | some c =>
      simp only []
      by_cases hcap2 : cap ≤ (acc ++ [c]).length
      · rw [if_pos hcap2]
        have hlen : (acc ++ [c]).length = cap := by
          have h3 : (acc ++ [c]).length = acc.length + 1 := by simp
          omega
        have hassoc : acc ++ c :: rs.filterMap (prepare_candidate pfx) =
            (acc ++ [c]) ++ rs.filterMap (prepare_candidate pfx) := by simp
        rw [hassoc, List.take_append_of_le_length hcap2,
          List.take_of_length_le (le_of_eq hlen)]
      · rw [if_neg hcap2]
        have hlt : (acc ++ [c]).length < cap := Nat.lt_of_not_le hcap2
        rw [ih (acc ++ [c]) hlt]
        congr 1
        simp

/-- Claim C3: the candidate collector draws from the two logical sources —
flat knowledge chunks first, then per-article nested chunks, i.e. the
capped truncation of their concatenation (one interleaving of the two
streams) — stops at the configured maximum candidate count, silently drops
chunks with empty text, and yields an empty sequence (not an error) when
the corpus has no usable chunk. -/
theorem claim_C3_collector (cap : ℕ) (manual : List ManualDoc) (articles : List Article)
    (hcap : 1 ≤ cap) :
    collect_candidates cap manual articles =
      ((stream_manual_chunks (manual.take cap) false).filterMap (prepare_candidate "manual") ++
        (stream_article_chunks (articles.take cap) false).filterMap
          (prepare_candidate "article")).take cap ∧
    (collect_candidates cap manual articles).length ≤ cap ∧
    (∃ i j, collect_candidates cap manual articles =
      ((stream_manual_chunks (manual.take cap) false).filterMap
        (prepare_candidate "manual")).take i ++
      ((stream_article_chunks (articles.take cap) false).filterMap
        (prepare_candidate "article")).take j) ∧
    (∀ c ∈ collect_candidates cap manual articles, c.content ≠ "") ∧
    ((stream_manual_chunks (manual.take cap) false).filterMap (prepare_candidate "manual") = [] →
      (stream_article_chunks (articles.take cap) false).filterMap
        (prepare_candidate "article") = [] →
      collect_candidates cap manual articles = []) := by
  set fmM :=
    (stream_manual_chunks (manual.take cap) false).filterMap (prepare_candidate "manual")
    with hfmM
  set fmA :=
    (stream_article_chunks (articles.take cap) false).filterMap (prepare_candidate "article")
    with hfmA
  have heq : collect_candidates cap manual articles = (fmM ++ fmA).take cap := by
    simp only [collect_candidates]
    have h0 : ([] : List Candidate).length < cap := by simpa using hcap
    rw [collectInto_take cap "manual" _ [] h0, List.nil_append, ← hfmM]
    by_cases hc : cap ≤ (fmM.take cap).length
    · rw [if_pos hc]
      have hlen : cap ≤ fmM.length := by
        rw [List.length_take] at hc
        omega
      rw [List.take_append_of_le_length hlen]
    · rw [if_neg hc]
      have hlt : (fmM.take cap).length < cap := Nat.lt_of_not_le hc
      rw [collectInto_take cap "article" _ _ hlt, ← hfmA]
      have hfml : fmM.length < cap := by
        rw [List.length_take] at hlt
        omega
      rw [List.take_of_length_le (le_of_lt hfml)]
  refine ⟨heq, ?_, ⟨cap, cap - fmM.length, ?_⟩, ?_, ?_⟩
  · rw [heq, List.length_take]
    exact min_le_left _ _
  · rw [heq, List.take_append_eq_append_take]
  · intro c hc
    rw [heq] at hc
    have hc2 : c ∈ fmM ++ fmA := (List.take_sublist _ _).mem hc
    rcases List.mem_append.mp hc2 with hm | ha
    · obtain ⟨r, _, hr⟩ := List.mem_filterMap.mp hm
      exact prepare_content_ne _ r c hr
    · obtain ⟨r, _, hr⟩ := List.mem_filterMap.mp ha
      exact prepare_content_ne _ r c hr
  · intro h1 h2
    rw [heq, h1, h2]
    simp

/-- Closed instantiation of `claim_C3_collector`: a corpus of one manual
document and one two-chunk article yields three candidates with nonempty
text, and the empty corpus yields no candidates. -/
theorem claim_C3_witness :
    (collect_candidates 400 [testManualDoc] [testArticle]).length = 3 ∧
    (∀ c ∈ collect_candidates 400 [testManualDoc] [testArticle], c.content ≠ "") ∧
    collect_candidates 400 [] [] = [] :=
  ⟨by decide,
   (claim_C3_collector 400 [testManualDoc] [testArticle] (by decide)).2.2.2.1,
   (claim_C3_collector 400 [] [] (by decide)).2.2.2.2 (by decide) (by decide)⟩

/-- Closed instantiation of `claim_C1_judge_amended`: transport failure
fails open to YES, and with strong similarity the judge-reason escalation
tracks the parsed verdict on a concrete NO answer. -/
theorem claim_C1_witness :
    judge_relevance true (.error ()) = "YES" ∧
    judge_relevance true (.ok (some " yes. ")) = "YES" ∧
    ((run_validation true (.ok (some "NO")) "anything" [testChunk (9/10) "text"]
        zeroMetrics).reason =
        some "LLM Relevance Judge determined retrieved context insufficient" ↔
      judge_relevance true (.ok (some "NO")) = "NO") := by
  refine ⟨claim_C1_judge_amended.1 true, claim_C1_judge_amended.2.2.1 (some " yes. ") (by decide),
    claim_C1_judge_amended.2.2.2.2 true (.ok (some "NO")) "anything"
      [testChunk (9/10) "text"] zeroMetrics (by decide) ?_⟩
  rw [not_or]
  constructor
  · rw [not_lt]
    simp [avgSim, meanOrZero, testChunk]
    norm_num
  · rw [not_lt]
    simp [maxSim, pyMax, testChunk]
    norm_num

/-- Closed instantiation of `claim_C2_precision_amended`: the zero case on
an all-stopword-free empty tokenization, the ratio form on a concrete
two-chunk list, and the recorded metric. -/
theorem claim_C2_witness :
    calculate_context_precision "" [testChunk 1 "text"] = 0 ∧
    calculate_context_precision "alpha beta gamma"
        [testChunk (9/10) "alpha beta gamma details", testChunk (4/5) "unrelated text"] =
      ((relevantCount "alpha beta gamma"
          [testChunk (9/10) "alpha beta gamma details", testChunk (4/5) "unrelated text"] : ℚ) /
        (2 : ℚ)) ∧
    (run_validation false (.ok none) "alpha beta gamma"
        [testChunk (9/10) "alpha beta gamma details", testChunk (4/5) "unrelated text"]
        zeroMetrics).metrics.context_precision =
      calculate_context_precision "alpha beta gamma"
        [testChunk (9/10) "alpha beta gamma details", testChunk (4/5) "unrelated text"] :=
  ⟨claim_C2_precision_amended.1 "" [testChunk 1 "text"] (Or.inl (by decide)),
   (claim_C2_precision_amended.2.1 "alpha beta gamma"
      [testChunk (9/10) "alpha beta gamma details", testChunk (4/5) "unrelated text"]
      (by decide) (by decide)),
   claim_C2_precision_amended.2.2 false (.ok none) "alpha beta gamma"
      [testChunk (9/10) "alpha beta gamma details", testChunk (4/5) "unrelated text"]
      zeroMetrics (by decide)⟩

/-- Adding a contribution for key `k` changes the looked-up score of `d` by
that contribution exactly when `k = d`. -/
theorem alGetD_alAdd (acc : List (String × ℚ)) (k d : String) (v : ℚ) :
    alGetD (alAdd acc k v) d 0 = alGetD acc d 0 + (if k = d then v else 0) := by
  induction acc with
  | nil =>
    simp only [alAdd, alGetD]
    by_cases h : k = d
    · rw [if_pos h]
      ring
    · rw [if_neg h]
      ring
  | cons p ps ih =>
    simp only [alAdd]
    by_cases h1 : p.1 = k
    · rw [if_pos h1]
      simp only [alGetD]
      by_cases h2 : p.1 = d
      · rw [if_pos h2, if_pos h2, if_pos (h1.symm.trans h2)]
      · rw [if_neg h2, if_neg h2, if_neg (fun hkd => h2 (h1.trans hkd))]
        ring
    · rw [if_neg h1]
      simp only [alGetD]
      by_cases h2 : p.1 = d
      · rw [if_pos h2, if_pos h2, if_neg (fun hkd => h1 (h2.trans hkd.symm))]
        ring
      · rw [if_neg h2, if_neg h2]
        exact ih

/-- One enumerated accumulation pass adds exactly the contribution sum of
the processed list. -/
theorem alGetD_rrfFold (w : ℚ) (d : String) :
    ∀ (l acc : List (String × ℚ)) (r : ℕ),
    alGetD (rrfFold w r acc l) d 0 = alGetD acc d 0 + contribSum w d r l := by
  intro l
  induction l with
  | nil =>
    intro acc r
    simp [rrfFold, contribSum]
  | cons p rest ih =>
    intro acc r
    obtain ⟨d', s⟩ := p
    simp only [rrfFold, contribSum]
    rw [ih, alGetD_alAdd]
    ring

/-- The fused score of a document id is the sum of its enumerated
contributions from the lexical list and from the semantic list. -/
theorem rrf_score_characterisation (w1 w2 : ℚ) (bm25_ranked semantic_ranked :
    List (String × ℚ)) (d : String) :
    alGetD (rrfScores w1 w2 bm25_ranked semantic_ranked) d 0 =
      contribSum w1 d 1 bm25_ranked + contribSum w2 d 1 semantic_ranked := by
  rw [rrfScores, alGetD_rrfFold, alGetD_rrfFold]
  simp [alGetD]

/-- A list that never mentions `d` contributes nothing. -/
theorem contribSum_notMem (w : ℚ) (d : String) :
    ∀ (l : List (String × ℚ)) (r : ℕ), d ∉ l.map Prod.fst → contribSum w d r l = 0 := by
  intro l
  induction l with
  | nil => intro r _; rfl
  | cons p rest ih =>
    intro r h
    obtain ⟨d', s⟩ := p
    simp only [List.map_cons, List.mem_cons] at h
    push_neg at h
    simp only [contribSum]
    rw [if_neg (fun he => h.1 he.symm), ih (r + 1) h.2]
    ring

/-- Contribution sums split over concatenation, with the enumeration offset
by the first part's length. -/
theorem contribSum_append (w : ℚ) (d : String) :
    ∀ (l1 l2 : List (String × ℚ)) (r : ℕ),
    contribSum w d r (l1 ++ l2) = contribSum w d r l1 + contribSum w d (r + l1.length) l2 := by
  intro l1
  induction l1 with
  | nil =>
    intro l2 r
    simp [contribSum]
  | cons p rest ih =>
    intro l2 r
    obtain ⟨d', s⟩ := p
    simp only [List.cons_append, contribSum, List.length_cons, List.append_eq]
    rw [ih]
    have : r + 1 + rest.length = r + (rest.length + 1) := by omega
    rw [this]
    ring

/-- A document id occurring exactly once, at 1-based rank `|p| + 1`,
collects exactly `w / (60 + rank)` from that list. -/
theorem contribSum_single (w : ℚ) (d : String) (p q : List (String × ℚ)) (s : ℚ)
    (hp : d ∉ p.map Prod.fst) (hq : d ∉ q.map Prod.fst) :
    contribSum w d 1 (p ++ (d, s) :: q) = w / (60 + ((p.length + 1 : ℕ) : ℚ)) := by
  rw [contribSum_append, contribSum_notMem w d p 1 hp]
  simp only [contribSum]
  rw [if_pos (by trivial), contribSum_notMem w d q _ hq]
  push_cast
  ring_nf

/-- Members of the chunk-building loop carry exactly a fused pair's id and
score. -/
theorem buildChunks_mem (cands : List Candidate) (lexLk semLk : List (String × ℚ)) :
    ∀ (l : List (String × ℚ)) (idx : ℕ) (ch : Chunk), ch ∈ buildChunks cands lexLk semLk idx l →
    ∃ pr ∈ l, ch.doc_id = pr.1 ∧ ch.fusion_score = pr.2 := by
  intro l
  induction l with
  | nil => intro idx ch h; simp [buildChunks] at h
  | cons p rest ih =>
    intro idx ch h
    obtain ⟨d, f⟩ := p
    simp only [buildChunks] at h
    cases hfc : findCand cands d with
    | none =>
      rw [hfc] at h
      obtain ⟨pr, hpr, he⟩ := ih (idx + 1) ch h
      exact ⟨pr, List.mem_cons_of_mem _ hpr, he⟩
    | some c =>
      rw [hfc] at h
      rcases List.mem_cons.mp h with rfl | hrest
      · exact ⟨(d, f), List.mem_cons_self _ _, rfl, rfl⟩
      · obtain ⟨pr, hpr, he⟩ := ih (idx + 1) ch hrest
        exact ⟨pr, List.mem_cons_of_mem _ hpr, he⟩

/-- Keys after a dict-style add: the added key, or an existing one. -/
theorem alAdd_keys_cases (acc : List (String × ℚ)) (k : String) (v : ℚ) (x : String) :
    x ∈ (alAdd acc k v).map Prod.fst → x ∈ acc.map Prod.fst ∨ x = k := by
  induction acc with
  | nil =>
    intro h
    simp only [alAdd, List.map_cons, List.map_nil, List.mem_singleton] at h
    exact Or.inr h
  | cons p ps ih =>
    intro h
    simp only [alAdd] at h
    by_cases h1 : p.1 = k
    · rw [if_pos h1] at h
      simp only [List.map_cons, List.mem_cons] at h
      rcases h with h | h
      · exact Or.inl (by simp [h])
      · exact Or.inl (by simp [h])
    · rw [if_neg h1] at h
      simp only [List.map_cons, List.mem_cons] at h
      rcases h with h | h
      · exact Or.inl (by simp [h])
      · rcases ih h with h2 | h2
        · exact Or.inl (List.mem_cons_of_mem _ h2)
        · exact Or.inr h2

/-- A dict-style add keeps the key list duplicate-free. -/
theorem alAdd_keys_nodup (acc : List (String × ℚ)) (k : String) (v : ℚ)
    (h : (acc.map Prod.fst).Nodup) : ((alAdd acc k v).map Prod.fst).Nodup := by
  induction acc with
  | nil => simp [alAdd]
  | cons p ps ih =>
    simp only [alAdd]
    by_cases h1 : p.1 = k
    · rw [if_pos h1]
      simpa using h
    · rw [if_neg h1]
      simp only [List.map_cons, List.nodup_cons] at h ⊢
      refine ⟨fun hc => ?_, ih h.2⟩
      rcases alAdd_keys_cases ps k v p.1 hc with h2 | h2
      · exact h.1 h2
      · exact h1 h2

/-- The accumulation pass keeps the key list duplicate-free. -/
theorem rrfFold_keys_nodup (w : ℚ) :
    ∀ (l acc : List (String × ℚ)) (r : ℕ), (acc.map Prod.fst).Nodup →
    ((rrfFold w r acc l).map Prod.fst).Nodup := by
  intro l
  induction l with
  | nil => intro acc r h; exact h
  | cons p rest ih =>
    intro acc r h
    obtain ⟨d, s⟩ := p
    simp only [rrfFold]
    exact ih _ (r + 1) (alAdd_keys_nodup acc d _ h)

/-- Looking up a member of a dict with duplicate-free keys returns its
value. -/
theorem alGetD_of_mem_nodup :
    ∀ (l : List (String × ℚ)) (pr : String × ℚ), pr ∈ l → (l.map Prod.fst).Nodup →
    alGetD l pr.1 0 = pr.2 := by
  intro l
  induction l with
  | nil => intro pr h; simp at h
  | cons p ps ih =>
    intro pr hmem hnd
    simp only [List.map_cons, List.nodup_cons] at hnd
    rcases List.mem_cons.mp hmem with rfl | hps
    · simp [alGetD]
    · simp only [alGetD]
      rw [if_neg (fun he => hnd.1 (by rw [he]; exact List.mem_map_of_mem Prod.fst hps))]
      exact ih pr hps hnd.2

/-- Claim C4: a candidate at 1-based lexical rank `r1` and semantic rank
`r2` has fused score `0.40/(60+r1) + 0.60/(60+r2)`; with only one
appearance it gets just that term; contributions accumulate additively and
nothing else enters; and every fused output chunk's `fusion_score` is
exactly this accumulated dict value for its id. -/
theorem claim_C4_fusion_weight_law (bm25_ranked semantic_ranked : List (String × ℚ))
    (d : String) (top_k : ℕ) (cands : List Candidate) :
    (∀ (p1 q1 : List (String × ℚ)) (s1 : ℚ) (p2 q2 : List (String × ℚ)) (s2 : ℚ),
      bm25_ranked = p1 ++ (d, s1) :: q1 → d ∉ p1.map Prod.fst → d ∉ q1.map Prod.fst →
      semantic_ranked = p2 ++ (d, s2) :: q2 → d ∉ p2.map Prod.fst → d ∉ q2.map Prod.fst →
      alGetD (rrfScores (2/5) (3/5) bm25_ranked semantic_ranked) d 0 =
        (2/5) / (60 + ((p1.length + 1 : ℕ) : ℚ)) + (3/5) / (60 + ((p2.length + 1 : ℕ) : ℚ))) ∧
    (∀ (p1 q1 : List (String × ℚ)) (s1 : ℚ),
      bm25_ranked = p1 ++ (d, s1) :: q1 → d ∉ p1.map Prod.fst → d ∉ q1.map Prod.fst →
      d ∉ semantic_ranked.map Prod.fst →
      alGetD (rrfScores (2/5) (3/5) bm25_ranked semantic_ranked) d 0 =
        (2/5) / (60 + ((p1.length + 1 : ℕ) : ℚ))) ∧
    (∀ (p2 q2 : List (String × ℚ)) (s2 : ℚ),
      semantic_ranked = p2 ++ (d, s2) :: q2 → d ∉ p2.map Prod.fst → d ∉ q2.map Prod.fst →
      d ∉ bm25_ranked.map Prod.fst →
      alGetD (rrfScores (2/5) (3/5) bm25_ranked semantic_ranked) d 0 =
        (3/5) / (60 + ((p2.length + 1 : ℕ) : ℚ))) ∧
    (∀ ch ∈ fuse_results (2/5) (3/5) top_k bm25_ranked semantic_ranked cands,
      ch.fusion_score =
        alGetD (rrfScores (2/5) (3/5) bm25_ranked semantic_ranked) ch.doc_id 0) := by
  refine ⟨?_, ?_, ?_, ?_⟩
  · intro p1 q1 s1 p2 q2 s2 hb hp1 hq1 hs hp2 hq2
    rw [rrf_score_characterisation, hb, hs,
      contribSum_single _ _ _ _ _ hp1 hq1, contribSum_single _ _ _ _ _ hp2 hq2]
  · intro p1 q1 s1 hb hp1 hq1 hsem
    rw [rrf_score_characterisation, hb,
      contribSum_single _ _ _ _ _ hp1 hq1, contribSum_notMem _ _ _ _ hsem]
    ring
  · intro p2 q2 s2 hs hp2 hq2 hbm
    rw [rrf_score_characterisation, hs,
      contribSum_single _ _ _ _ _ hp2 hq2, contribSum_notMem _ _ _ _ hbm]
    ring
  · intro ch hch
    simp only [fuse_results] at hch
    obtain ⟨pr, hpr, hid, hsc⟩ := buildChunks_mem _ _ _ _ _ _ hch
    have hmem : pr ∈ rrfScores (2/5) (3/5) bm25_ranked semantic_ranked := by
      have h1 : pr ∈ List.insertionSort fusGe
          (rrfScores (2/5) (3/5) bm25_ranked semantic_ranked) :=
        (List.take_sublist _ _).mem hpr
      exact ((List.perm_insertionSort fusGe _).mem_iff).mp h1
    have hnd : ((rrfScores (2/5) (3/5) bm25_ranked semantic_ranked).map Prod.fst).Nodup := by
      rw [rrfScores]
      exact rrfFold_keys_nodup _ _ _ _ (rrfFold_keys_nodup _ _ _ _ (by simp))
    rw [hid, hsc]
    exact (alGetD_of_mem_nodup _ pr hmem hnd).symm

/-- Closed instantiation of `claim_C4_fusion_weight_law`: the id "b" sits
at lexical rank 2 and semantic rank 1, so its fused score is
0.40/62 + 0.60/61. -/
theorem claim_C4_witness :
    alGetD (rrfScores (2/5) (3/5) [("a", (5:ℚ)), ("b", 3)] [("b", (7:ℚ))]) "b" 0 =
      (2/5) / 62 + (3/5) / 61 := by
  have h := (claim_C4_fusion_weight_law [("a", (5:ℚ)), ("b", 3)] [("b", (7:ℚ))] "b" 5 []).1
    [("a", 5)] [] 3 [] [] 7 rfl (by decide) (by decide) rfl (by decide) (by decide)
  rw [h]
  norm_num

/-- When some candidate carries the requested id, the last-wins lookup
succeeds. -/
theorem findCand_of_exists :
    ∀ (cands : List Candidate) (d : String), (∃ c ∈ cands, c.doc_id = d) →
    ∃ c', findCand cands d = some c' := by
  intro cands
  induction cands with
  | nil => intro d h; simp at h
  | cons c cs ih =>
    intro d h
    simp only [findCand]
    cases hf : findCand cs d with
    | some r => exact ⟨r, rfl⟩
    | none =>
      obtain ⟨c', hc', hid⟩ := h
      rcases List.mem_cons.mp hc' with rfl | hcs
      · rw [if_pos hid]
        exact ⟨c', rfl⟩
      · obtain ⟨r, hr⟩ := ih d ⟨c', hcs, hid⟩
        rw [hr] at hf
        cases hf

/-- When every fused id has a candidate, no entry is skipped: the output
has one chunk per fused pair. -/
theorem buildChunks_length_all_found (cands : List Candidate) (lexLk semLk : List (String × ℚ)) :
    ∀ (l : List (String × ℚ)) (idx : ℕ),
    (∀ d ∈ l.map Prod.fst, ∃ c ∈ cands, c.doc_id = d) →
    (buildChunks cands lexLk semLk idx l).length = l.length := by
  intro l
  induction l with
  | nil => intro idx _; rfl
  | cons p rest ih =>
    intro idx hall
    obtain ⟨d, f⟩ := p
    obtain ⟨c', hc'⟩ := findCand_of_exists cands d (hall d (by simp))
    simp only [buildChunks, hc', List.length_cons]
    rw [ih (idx + 1) (fun x hx => hall x (by simp [hx]))]

/-- When every fused id has a candidate, citation ids are assigned
sequentially from the starting index. -/
theorem buildChunks_citation (cands : List Candidate) (lexLk semLk : List (String × ℚ)) :
    ∀ (l : List (String × ℚ)) (idx : ℕ),
    (∀ d ∈ l.map Prod.fst, ∃ c ∈ cands, c.doc_id = d) →
    ∀ (i : ℕ), i < (buildChunks cands lexLk semLk idx l).length →
    ((buildChunks cands lexLk semLk idx l)[i]?).map Chunk.citation_id =
      some (kbDocId (idx + i)) := by
  intro l
  induction l with
  | nil => intro idx _ i h; simp [buildChunks] at h
  | cons p rest ih =>
    intro idx hall i h
    obtain ⟨d, f⟩ := p
    obtain ⟨c', hc'⟩ := findCand_of_exists cands d (hall d (by simp))
    have hred : buildChunks cands lexLk semLk idx ((d, f) :: rest) =
        { doc_id := d
          citation_id := kbDocId idx
          content := c'.content
          source := c'.source
          metadata := c'.metadata
          embedding := c'.embedding
          similarity_score := lastGetD semLk d 0
          lexical_score := lastGetD lexLk d 0
          fusion_score := f
          preview := pyStrip (c'.content.take 480) } ::
          buildChunks cands lexLk semLk (idx + 1) rest := by
      simp only [buildChunks, hc']
    rw [hred] at h ⊢
    cases i with
    | zero => simp
    | succ i =>
      simp only [List.getElem?_cons_succ]
      rw [ih (idx + 1) (fun x hx => hall x (by simp [hx])) i (by simpa using h)]
      have harith : idx + 1 + i = idx + (i + 1) := by omega
      rw [harith]

/-- The chunk-building loop preserves descending fused-score order. -/
theorem buildChunks_sorted (cands : List Candidate) (lexLk semLk : List (String × ℚ)) :
    ∀ (l : List (String × ℚ)) (idx : ℕ), l.Pairwise fusGe →
    (buildChunks cands lexLk semLk idx l).Pairwise
      (fun x y => y.fusion_score ≤ x.fusion_score) := by
  intro l
  induction l with
  | nil => intro idx _; simp [buildChunks]
  | cons p rest ih =>
    intro idx hp
    obtain ⟨d, f⟩ := p
    rw [List.pairwise_cons] at hp
    simp only [buildChunks]
    cases hfc : findCand cands d with
    | none => exact ih (idx + 1) hp.2
    | some c =>
      rw [List.pairwise_cons]
      refine ⟨fun ch hch => ?_, ih (idx + 1) hp.2⟩
      obtain ⟨pr, hpr, _, hsc⟩ := buildChunks_mem cands lexLk semLk rest (idx + 1) ch hch
      rw [hsc]
      exact hp.1 pr hpr

/-- Claim C5: when every fused id resolves in the candidate lookup (always
the case for the ids produced by the pipeline itself), the fusion output of
K chunks carries citation ids `kb_doc_001 .. kb_doc_K` assigned
sequentially in final fused-rank order, and fused scores are
non-increasing along the output; the output never exceeds `top_k`. -/
theorem claim_C5_citation_monotonicity (w1 w2 : ℚ) (top_k : ℕ)
    (bm25_ranked semantic_ranked : List (String × ℚ)) (cands : List Candidate)
    (hall : ∀ d ∈ (rrfScores w1 w2 bm25_ranked semantic_ranked).map Prod.fst,
      ∃ c ∈ cands, c.doc_id = d) :
    (fuse_results w1 w2 top_k bm25_ranked semantic_ranked cands).length =
      min top_k (rrfScores w1 w2 bm25_ranked semantic_ranked).length ∧
    (fuse_results w1 w2 top_k bm25_ranked semantic_ranked cands).length ≤ top_k ∧
    (∀ (i : Fin (fuse_results w1 w2 top_k bm25_ranked semantic_ranked cands).length),
      ((fuse_results w1 w2 top_k bm25_ranked semantic_ranked cands).get i).citation_id =
        kbDocId (i.1 + 1)) ∧
    (∀ (i j : Fin (fuse_results w1 w2 top_k bm25_ranked semantic_ranked cands).length),
      i < j →
      ((fuse_results w1 w2 top_k bm25_ranked semantic_ranked cands).get j).fusion_score ≤
        ((fuse_results w1 w2 top_k bm25_ranked semantic_ranked cands).get i).fusion_score) := by
  have htransfer : ∀ d ∈ ((List.insertionSort fusGe
      (rrfScores w1 w2 bm25_ranked semantic_ranked)).take top_k).map Prod.fst,
      ∃ c ∈ cands, c.doc_id = d := by
    intro d hd
    refine hall d ?_
    have h1 : d ∈ (List.insertionSort fusGe
        (rrfScores w1 w2 bm25_ranked semantic_ranked)).map Prod.fst :=
      ((List.take_sublist _ _).map Prod.fst).mem hd
    exact (((List.perm_insertionSort fusGe _).map Prod.fst).mem_iff).mp h1
  have hlen : (fuse_results w1 w2 top_k bm25_ranked semantic_ranked cands).length =
      min top_k (rrfScores w1 w2 bm25_ranked semantic_ranked).length := by
    simp only [fuse_results]
    rw [buildChunks_length_all_found _ _ _ _ _ htransfer, List.length_take,
      (List.perm_insertionSort fusGe _).length_eq]
  refine ⟨hlen, by rw [hlen]; exact min_le_left _ _, fun i => ?_, fun i j hij => ?_⟩
  · have hb : (i : ℕ) < (buildChunks cands bm25_ranked semantic_ranked 1
        ((List.insertionSort fusGe
          (rrfScores w1 w2 bm25_ranked semantic_ranked)).take top_k)).length := i.2
    have hh := buildChunks_citation cands bm25_ranked semantic_ranked _ 1 htransfer i.1 hb
    rw [List.getElem?_eq_getElem hb, Option.map_some'] at hh
    have hv := Option.some.inj hh
    simpa [fuse_results, List.get_eq_getElem, Nat.add_comm] using hv
  · have hsorted : ((List.insertionSort fusGe
        (rrfScores w1 w2 bm25_ranked semantic_ranked)).take top_k).Pairwise fusGe :=
      (List.sorted_insertionSort fusGe _).sublist (List.take_sublist _ _)
    have hp := buildChunks_sorted cands bm25_ranked semantic_ranked _ 1 hsorted
    exact List.pairwise_iff_get.mp hp i j hij

/-- Closed instantiation of `claim_C5_citation_monotonicity`: two fused
ids over two candidates give chunks `kb_doc_001`, `kb_doc_002` in order
with non-increasing fused scores. -/
theorem claim_C5_witness :
    (fuse_results (2/5) (3/5) 5 [("a", (5:ℚ)), ("b", 3)] [("b", (7:ℚ))]
        [candA, candB]).length = 2 ∧
    ((fuse_results (2/5) (3/5) 5 [("a", (5:ℚ)), ("b", 3)] [("b", (7:ℚ))]
        [candA, candB])[0]?).map Chunk.citation_id = some "kb_doc_001" ∧
    ((fuse_results (2/5) (3/5) 5 [("a", (5:ℚ)), ("b", 3)] [("b", (7:ℚ))]
        [candA, candB])[1]?).map Chunk.citation_id = some "kb_doc_002" ∧
    (fuse_results (2/5) (3/5) 5 [("a", (5:ℚ)), ("b", 3)] [("b", (7:ℚ))]
        [candA, candB]).Pairwise (fun x y => y.fusion_score ≤ x.fusion_score) := by
  have hall : ∀ d ∈ (rrfScores (2/5) (3/5) [("a", (5:ℚ)), ("b", 3)]
      [("b", (7:ℚ))]).map Prod.fst, ∃ c ∈ [candA, candB], c.doc_id = d := by
    intro d hd
    rw [show (rrfScores (2/5) (3/5) [("a", (5:ℚ)), ("b", 3)]
        [("b", (7:ℚ))]).map Prod.fst = ["a", "b"] from by decide] at hd
    rcases List.mem_cons.mp hd with rfl | hd2
    · exact ⟨candA, List.mem_cons_self _ _, rfl⟩
    · rcases List.mem_singleton.mp hd2 with rfl
      exact ⟨candB, by simp, rfl⟩
  have h := claim_C5_citation_monotonicity (2/5) (3/5) 5 [("a", (5:ℚ)), ("b", 3)]
    [("b", (7:ℚ))] [candA, candB] hall
  have hlen : (fuse_results (2/5) (3/5) 5 [("a", (5:ℚ)), ("b", 3)] [("b", (7:ℚ))]
      [candA, candB]).length = 2 := by
    rw [h.1, show (rrfScores (2/5) (3/5) [("a", (5:ℚ)), ("b", 3)]
      [("b", (7:ℚ))]).length = 2 from by decide]
    decide
  have h0 : 0 < (fuse_results (2/5) (3/5) 5 [("a", (5:ℚ)), ("b", 3)] [("b", (7:ℚ))]
      [candA, candB]).length := by rw [hlen]; norm_num
  have h1 : 1 < (fuse_results (2/5) (3/5) 5 [("a", (5:ℚ)), ("b", 3)] [("b", (7:ℚ))]
      [candA, candB]).length := by rw [hlen]; norm_num
  refine ⟨hlen, ?_, ?_, ?_⟩
  · rw [List.getElem?_eq_getElem h0]
    have := h.2.2.1 ⟨0, h0⟩
    simp only [List.get_eq_getElem] at this
    rw [Option.map_some']
    rw [show Chunk.citation_id ((fuse_results (2/5) (3/5) 5 [("a", (5:ℚ)), ("b", 3)]
      [("b", (7:ℚ))] [candA, candB])[0]) = kbDocId 1 from this]
    decide
  · rw [List.getElem?_eq_getElem h1]
    have := h.2.2.1 ⟨1, h1⟩
    simp only [List.get_eq_getElem] at this
    rw [Option.map_some']
    rw [show Chunk.citation_id ((fuse_results (2/5) (3/5) 5 [("a", (5:ℚ)), ("b", 3)]
      [("b", (7:ℚ))] [candA, candB])[1]) = kbDocId 2 from this]
    decide
  · exact List.pairwise_iff_get.mpr (h.2.2.2)

/-- A term with positive stored frequency is a present key. -/
theorem tfGet_pos_hasKey : ∀ (l : List (String × ℕ)) (t : String),
    tfGet l t ≠ 0 → tfHasKey l t = true := by
  intro l
  induction l with
  | nil => intro t h; exact absurd rfl h
  | cons p ps ih =>
    intro t h
    simp only [tfGet] at h
    simp only [tfHasKey]
    by_cases hp : p.1 = t
    · rw [if_pos hp]
    · rw [if_neg hp] at h ⊢
      exact ih t h

/-- For a candidate drawn from the scored set and a non-degenerate average
document length, the defensive per-term score (with its skip conditions and
`1e-9` clamps) coincides with the textbook BM25 term, `k1 = 1.9`,
`b = 0.75`. -/
theorem bm25TermPiece_claimed (lg : ℚ → ℚ) (N : ℕ) (cands : List Candidate) (c : Candidate)
    (hc : c ∈ cands) (havg : 1/1000000000 ≤ bm25AvgDl cands) (t : String) :
    bm25TermPiece lg (19/10) (3/4) N cands (bm25AvgDl cands) c t =
      lg ((((N : ℚ) - (docFreq cands t : ℚ) + 1/2) / ((docFreq cands t : ℚ) + 1/2)) + 1) *
        (((tfGet c.term_freq t : ℚ) * ((19/10) + 1)) /
          ((tfGet c.term_freq t : ℚ) + (19/10) * (1 - 3/4 + (3/4) *
            ((c.doc_len : ℚ) / bm25AvgDl cands)))) := by
  simp only [bm25TermPiece]
  by_cases h0 : tfGet c.term_freq t = 0
  · rw [if_pos h0, h0]
    push_cast
    rw [zero_mul, zero_div, mul_zero]
  · rw [if_neg h0]
    have hdfpos : 0 < docFreq cands t := by
      rw [docFreq]
      exact List.countP_pos_iff.mpr ⟨c, hc, tfGet_pos_hasKey _ _ h0⟩
    rw [if_neg (Nat.pos_iff_ne_zero.mp hdfpos)]
    rw [max_eq_left havg]
    have htf1 : (1:ℚ) ≤ (tfGet c.term_freq t : ℚ) := by
      exact_mod_cast Nat.one_le_iff_ne_zero.mpr h0
    have havg0 : (0:ℚ) ≤ bm25AvgDl cands := le_trans (by norm_num) havg
    have hdiv : (0:ℚ) ≤ (c.doc_len : ℚ) / bm25AvgDl cands :=
      div_nonneg (Nat.cast_nonneg _) havg0
    have hden : (1:ℚ) ≤ (tfGet c.term_freq t : ℚ) + (19/10) * (1 - 3/4 + (3/4) *
        ((c.doc_len : ℚ) / bm25AvgDl cands)) := by nlinarith
    rw [max_eq_left (le_trans (by norm_num) hden)]

/-- Whole-candidate version of `bm25TermPiece_claimed`. -/
theorem bm25Score_eq_claimed (lg : ℚ → ℚ) (N : ℕ) (cands : List Candidate) (c : Candidate)
    (hc : c ∈ cands) (havg : 1/1000000000 ≤ bm25AvgDl cands) (terms : List String) :
    bm25Score lg (19/10) (3/4) N cands (bm25AvgDl cands) terms c =
      bm25ScoreClaimed lg (19/10) (3/4) N cands (bm25AvgDl cands) terms c := by
  simp only [bm25Score, bm25ScoreClaimed]
  congr 1
  apply List.map_congr_left
  intro t _
  exact bm25TermPiece_claimed lg N cands c hc havg t

/-- Claim C6: the BM25 retriever with `k1 = 1.9`, `b = 0.75` returns, for
non-degenerate inputs, at most `top_k` entries in descending score order,
every entry scoring positive and equal to the claimed Okapi formula with
document frequencies over the passed candidate set and `avg_dl` the mean
`doc_len`; empty query terms or candidates yield an empty result rather
than an error. -/
theorem claim_C6_bm25 (lg : ℚ → ℚ) (query_terms : List String) (cands : List Candidate)
    (top_k : ℕ) :
    ((query_terms = [] ∨ cands = []) →
      bm25_rank lg (19/10) (3/4) query_terms cands top_k = []) ∧
    (bm25_rank lg (19/10) (3/4) query_terms cands top_k).length ≤ top_k ∧
    (bm25_rank lg (19/10) (3/4) query_terms cands top_k).Pairwise fusGe ∧
    (1/1000000000 ≤ bm25AvgDl cands →
      ∀ pr ∈ bm25_rank lg (19/10) (3/4) query_terms cands top_k,
        0 < pr.2 ∧ ∃ c ∈ cands, c.doc_id = pr.1 ∧
          pr.2 = bm25ScoreClaimed lg (19/10) (3/4) cands.length cands (bm25AvgDl cands)
            query_terms c) := by
  refine ⟨fun h => by rw [bm25_rank, if_pos h], ?_, ?_, fun havg pr hpr => ?_⟩
  · rw [bm25_rank]
    split_ifs
    · simp
    · exact List.length_take_le _ _
  · rw [bm25_rank]
    split_ifs
    · simp
    · exact (List.sorted_insertionSort fusGe _).sublist (List.take_sublist _ _)
  · by_cases hemp : query_terms = [] ∨ cands = []
    · rw [bm25_rank, if_pos hemp] at hpr
      simp at hpr
    · simp only [bm25_rank, if_neg hemp] at hpr
      have h2 : pr ∈ cands.filterMap (fun c =>
          if c.term_freq = [] then none
          else
            let s := bm25Score lg (19/10) (3/4) cands.length cands (bm25AvgDl cands)
              query_terms c
            if 0 < s then some (c.doc_id, s) else none) :=
        ((List.perm_insertionSort fusGe _).mem_iff).mp ((List.take_sublist _ _).mem hpr)
      obtain ⟨c, hc, hfc⟩ := List.mem_filterMap.mp h2
      by_cases h3 : c.term_freq = []
      · rw [if_pos h3] at hfc
        cases hfc
      · rw [if_neg h3] at hfc
        simp only [] at hfc
        by_cases h4 : 0 < bm25Score lg (19/10) (3/4) cands.length cands (bm25AvgDl cands)
            query_terms c
        · rw [if_pos h4] at hfc
          have hinj := Option.some.inj hfc
          refine ⟨?_, c, hc, ?_, ?_⟩
          · rw [← hinj]
            exact h4
          · rw [← hinj]
          · rw [← hinj]
            exact bm25Score_eq_claimed lg cands.length cands c hc havg query_terms
        · rw [if_neg h4] at hfc
          cases hfc

/-- Closed instantiation of `claim_C6_bm25`: over two three-token
candidates of equal length and a trivialised logarithm, the matching
candidate scores exactly 2, the non-matching one is excluded, and the
returned score meets the claimed formula; empty query terms return an
empty ranking. -/
theorem claim_C6_witness :
    bm25_rank (fun _ => 1) (19/10) (3/4) ["password", "reset"] [candA, candB] 5 =
      [("a", 2)] ∧
    bm25_rank (fun _ => 1) (19/10) (3/4) [] [candA, candB] 5 = [] ∧
    (2:ℚ) = bm25ScoreClaimed (fun _ => 1) (19/10) (3/4) 2 [candA, candB]
      (bm25AvgDl [candA, candB]) ["password", "reset"] candA := by
  have heval : bm25_rank (fun _ => 1) (19/10) (3/4) ["password", "reset"] [candA, candB] 5 =
      [("a", 2)] := by
    simp [bm25_rank, bm25Score, bm25TermPiece, bm25AvgDl, tfGet, tfHasKey, docFreq,
      candA, candB, List.insertionSort, List.orderedInsert, fusGe, emptyMeta,
      List.filterMap_cons, List.filterMap_nil]
    norm_num
  have havg : 1/1000000000 ≤ bm25AvgDl [candA, candB] := by
    have havgdl : bm25AvgDl [candA, candB] = 3 := by
      simp [bm25AvgDl, candA, candB]
    rw [havgdl]
    norm_num
  have h4 := (claim_C6_bm25 (fun _ => 1) ["password", "reset"] [candA, candB] 5).2.2.2
    havg ("a", 2) (by rw [heval]; exact List.mem_singleton_self _)
  obtain ⟨_, c, hcmem, hid, heq⟩ := h4
  refine ⟨heval, (claim_C6_bm25 (fun _ => 1) [] [candA, candB] 5).1 (Or.inl rfl), ?_⟩
  rcases List.mem_cons.mp hcmem with rfl | h'
  · exact heq
  · rcases List.mem_singleton.mp h' with rfl
    exact absurd hid (by decide)
